import Mathlib

/-!
Shallow embedding of `src/karaoke.py` (karaoke-cli), covering the lyric
parser (`TIMESTAMP`, `parse_lrc`), the active-line lookup
(`find_current_index`), the playback-clock variables (`offset`, `start`),
the per-tick key handling and exit check of `karaoke`, and the pre-loop
setup (empty-track check, player launch).

Modelling conventions:
* Python floats are modelled as rationals (`ℚ`); every value produced by the
  program here is an exact decimal (tag times, the 0.05 nudge step, the 1.0
  grace), so the rational model computes the same ideal values the spec
  describes.
* Strings are modelled as `List Char`; the file's lines are obtained by
  splitting on the newline character, matching Python's line iteration
  followed by `rstrip("\n")`.
* Loops that are not structurally recursive carry a fuel argument so that
  every definition is executable by the kernel; the top-level wrappers pass
  fuel that provably suffices (each iteration strictly shrinks the measure).
* Python list indexing `lyrics[i]` is modelled by `pyGet?`, which returns
  `none` outside `[0, len)`; `find_current_index` is proved to never produce
  such an access (Python's negative-index wrap-around is never triggered).
-/

namespace KaraokeCli

/-- `Line` from `karaoke.py` (lines 33-36): a timestamp in seconds and the
tag-stripped lyric text. -/
structure Line where
  t : ℚ
  text : String
deriving DecidableEq

/-! ## The tag grammar: `TIMESTAMP = re.compile(r"\[(\d{2}):(\d{2})(?:\.(\d{1,2}))?\]")` -/

/-- Numeric value of a decimal digit character (`int` on a digit). -/
def digitVal (c : Char) : ℕ := c.toNat - 48

/-- Python `int()` on a string of decimal digits. -/
def digitsToNat (s : List Char) : ℕ := s.foldl (fun n c => 10 * n + digitVal c) 0

/-- The three capture groups of one `TIMESTAMP` match: minutes digits,
seconds digits, and the optional fraction digits. -/
structure TagGroups where
  mm : List Char
  ss : List Char
  frac : Option (List Char)
deriving DecidableEq

/-- Match `TIMESTAMP` at the beginning of `s`.  On success, return the capture
groups and the remainder of the input after the closing bracket.  The
fraction is matched greedily with backtracking, exactly like `(?:\.(\d{1,2}))?\]`:
two digits are taken if a `]` follows them, else one digit if a `]` follows
it, else the optional group fails, in which case a `]` must follow the
seconds digits directly. -/
def matchTagAt : List Char → Option (TagGroups × List Char)
  | '[' :: a :: b :: ':' :: c :: d :: rest =>
    if a.isDigit ∧ b.isDigit ∧ c.isDigit ∧ d.isDigit then
      match rest with
      | ']' :: r => some (⟨[a, b], [c, d], none⟩, r)
      | '.' :: r =>
        match r with
        | [] => none
        | e :: r1 =>
          if e.isDigit then
            match r1 with
            | [] => none
            | f :: r2 =>
              if f.isDigit then
                match r2 with
                | ']' :: r3 => some (⟨[a, b], [c, d], some [e, f]⟩, r3)
                | _ => none
              else if f = ']' then some (⟨[a, b], [c, d], some [e]⟩, r2)
              else none
          else none
      | _ => none
    else none
  | _ => none

/-- `TIMESTAMP.finditer(raw)` (fuel-driven scan; each step consumes at least
one character, so fuel `s.length + 1` suffices).  At each position, try a
match; on success continue after the match, otherwise advance one character. -/
def findStampsAux : ℕ → List Char → List TagGroups
  | 0, _ => []
  | _, [] => []
  | fuel + 1, c :: rest =>
    match matchTagAt (c :: rest) with
    | some (g, r) => g :: findStampsAux fuel r
    | none => findStampsAux fuel rest

/-- All `TIMESTAMP` matches of a line, left to right, non-overlapping. -/
def findStamps (s : List Char) : List TagGroups := findStampsAux (s.length + 1) s

/-- `TIMESTAMP.sub("", raw)`: the line with every matched tag removed. -/
def stripStampsAux : ℕ → List Char → List Char
  | 0, _ => []
  | _, [] => []
  | fuel + 1, c :: rest =>
    match matchTagAt (c :: rest) with
    | some (_, r) => stripStampsAux fuel r
    | none => c :: stripStampsAux fuel rest

/-- The line with every `TIMESTAMP` match removed. -/
def stripStamps (s : List Char) : List Char := stripStampsAux (s.length + 1) s

/-- Python `str.strip()` whitespace set: space, tab, newline, carriage
return, vertical tab, form feed. -/
def isPySpace (c : Char) : Bool :=
  c = ' ' ∨ c = '\t' ∨ c = '\n' ∨ c = '\r' ∨ c = '\x0b' ∨ c = '\x0c'

/-- Python `str.strip()`: drop leading and trailing whitespace. -/
def stripChars (s : List Char) : List Char :=
  ((s.dropWhile isPySpace).reverse.dropWhile isPySpace).reverse

/-- `parse_lrc` lines 48-56: turn one match's groups into a time in seconds.
`cc = m.group(3) or "0"`; one fraction digit means tenths, otherwise
`int(cc[:2])` hundredths; `t = mm * 60 + ss + frac`. -/
def stampTime (g : TagGroups) : ℚ :=
  let mm := digitsToNat g.mm
  let ss := digitsToNat g.ss
  let cc := g.frac.getD ['0']
  let frac : ℚ := if cc.length = 1 then (digitsToNat cc : ℚ) / 10
                  else (digitsToNat (cc.take 2) : ℚ) / 100
  (mm : ℚ) * 60 + (ss : ℚ) + frac

/-- `parse_lrc` per-line body (lines 42-57): find all stamps; a line with no
stamp is skipped; otherwise the tag-stripped, stripped text is paired with
each stamp's time, in match order. -/
def parseLine (raw : List Char) : List Line :=
  let stamps := findStamps raw
  if stamps = [] then []
  else
    let text := String.mk (stripChars (stripStamps raw))
    stamps.map (fun g => ⟨stampTime g, text⟩)

/-- Split file contents into lines at the newline character (Python's line
iteration followed by `rstrip("\n")`). -/
def splitNL : List Char → List (List Char)
  | [] => [[]]
  | c :: rest =>
    if c = '\n' then [] :: splitNL rest
    else
      match splitNL rest with
      | [] => [[c]]
      | l :: ls => (c :: l) :: ls

/-- Stable-insert `a` into `l`: `a` goes in front of the first element whose
timestamp is not strictly smaller.  Combined with `sortLines`'s
right-to-left fold this realises a stable ascending sort by `t`, i.e. the
specification of Python's `lines.sort(key=lambda x: x.t)` (line 58). -/
def insertLine (a : Line) : List Line → List Line
  | [] => [a]
  | b :: l => if b.t < a.t then b :: insertLine a l else a :: b :: l

/-- Stable ascending sort by timestamp, modelling `lines.sort(key=lambda x: x.t)`.
Stability (ties keep original order) is proved below (`sortLines_filter`). -/
def sortLines : List Line → List Line
  | [] => []
  | a :: l => insertLine a (sortLines l)

/-- The lyric lines in original parse order (before the final sort). -/
def collectLines (s : List Char) : List Line := ((splitNL s).map parseLine).flatten

/-- `parse_lrc` (lines 38-59) on file contents `s`. -/
def parse_lrc (s : List Char) : List Line := sortLines (collectLines s)

/-! ## `find_current_index` (lines 98-109) -/

/-- Python list read `xs[i]` restricted to the indices `find_current_index`
can produce: `none` models an access outside `[0, len)` (the code never
makes one, as proved below; Python's negative-index wrap-around is never
reached from `find_current_index`). -/
def pyGet? (xs : List Line) (i : Int) : Option Line :=
  if 0 ≤ i ∧ i < (xs.length : Int) then xs[i.toNat]? else none

/-- The `while lo <= hi` loop of `find_current_index`, fuel-driven.  `mid =
(lo + hi) / 2` uses `Int`'s `/`, which agrees with Python's floor division
`//` for the positive divisor `2`.  Each iteration strictly shrinks
`hi + 1 - lo`, so fuel `len + 1` suffices from the initial call; exhausted
fuel or an out-of-range read yields `none`, which is proved unreachable. -/
def findLoopAux (lyrics : List Line) (t : ℚ) : ℕ → Int → Int → Int → Option Int
  | 0, _, _, _ => none
  | fuel + 1, lo, hi, ans =>
    if lo ≤ hi then
      match pyGet? lyrics ((lo + hi) / 2) with
      | none => none
      | some line =>
        if line.t ≤ t then findLoopAux lyrics t fuel ((lo + hi) / 2 + 1) hi ((lo + hi) / 2)
        else findLoopAux lyrics t fuel lo ((lo + hi) / 2 - 1) ans
    else some ans

/-- `find_current_index(lyrics, t)` (lines 98-109): binary search, starting
from `lo = 0`, `hi = len(lyrics) - 1`, `ans = -1`. -/
def find_current_index (lyrics : List Line) (t : ℚ) : Option Int :=
  findLoopAux lyrics t (lyrics.length + 1) 0 ((lyrics.length : Int) - 1) (-1)

/-! ## The playback clock and the tick of `karaoke` (lines 136-205) -/

/-- The two clock variables of `karaoke`: the displayed cumulative `offset`
and the wall-clock anchor `start`.  Elapsed playback time is wall time minus
`start`. -/
structure ClockVars where
  offset : ℚ
  start : ℚ
deriving DecidableEq

/-- Line 136: `start = time.perf_counter() + offset`, with `now` the wall
clock at creation. -/
def initClock (now offset : ℚ) : ClockVars := ⟨offset, now + offset⟩

/-- Line 141: `now = time.perf_counter() - start`, sampled at wall time
`wall`. -/
def elapsedAt (c : ClockVars) (wall : ℚ) : ℚ := wall - c.start

/-- A generic offset nudge by `d` seconds: `offset += d; start -= d`.  The
code performs it with `d = 0.05` on KEY_UP (lines 195-196) and `d = -0.05`
on KEY_DOWN (lines 198-199); `0.05 = 1/20` exactly in the rational model. -/
def nudge (c : ClockVars) (d : ℚ) : ClockVars := ⟨c.offset + d, c.start - d⟩

/-- curses key codes used by the loop: `ord('q') = 113`, ESC `= 27`,
`curses.KEY_UP = 259`, `curses.KEY_DOWN = 258`; `getch()` returns `-1` when
no key is pending. -/
def keyQuitQ : Int := 113

/-- ESC key code. -/
def keyEsc : Int := 27

/-- `curses.KEY_UP`. -/
def keyUp : Int := 259

/-- `curses.KEY_DOWN`. -/
def keyDown : Int := 258

/-- Keyboard handling, lines 191-199: returns the updated clock variables
and whether the loop breaks (`q` or ESC).  Any other key, and `-1` (no
key), leaves everything unchanged. -/
def handleKey (ch : Int) (c : ClockVars) : ClockVars × Bool :=
  if ch ≠ -1 then
    if ch = keyQuitQ ∨ ch = keyEsc then (c, true)
    else if ch = keyUp then (nudge c (1/20), false)
    else if ch = keyDown then (nudge c (-(1/20)), false)
    else (c, false)
  else (c, false)

/-- Loop status after a tick: `Running` continues the `while True`,
`Stopping` is the `break` into the shutdown path. -/
inductive LoopState where
  | Running
  | Stopping
deriving DecidableEq

/-- One tick's control decisions (lines 141, 186-203): sample `now` with the
pre-tick clock, handle at most one key, then check the exit condition
`player.poll() is not None and now > last_stamp + 1.0` (the fixed grace is
1 second).  Rendering is out of scope; the tick returns the updated clock
variables and the loop status. -/
def tick (c : ClockVars) (lastStamp : ℚ) (ch : Int) (playerRunning : Bool)
    (wall : ℚ) : ClockVars × LoopState :=
  let now := elapsedAt c wall
  let kr := handleKey ch c
  if kr.2 then (kr.1, .Stopping)
  else if playerRunning = false ∧ lastStamp + 1 < now then (kr.1, .Stopping)
  else (kr.1, .Running)

/-! ## Pre-loop setup (lines 120-134) -/

/-- The two fatal pre-loop failures: `SystemExit("No timestamped lyrics
found in .lrc")` (line 122) and `SystemExit("ffplay not found...")`
(line 134). -/
inductive SessionError where
  | emptyTrack
  | playerUnavailable
deriving DecidableEq

/-- Lines 120-134: parse the lyrics; an empty track aborts before the player
is launched; otherwise the player launch is attempted, and a failed launch
aborts.  The second component records whether the launch was ever attempted
(`subprocess.Popen` reached). -/
def setupSession (lrcText : List Char) (ffplayAvailable : Bool) :
    Except SessionError (List Line) × Bool :=
  let lyrics := parse_lrc lrcText
  if lyrics = [] then (.error .emptyTrack, false)
  else if ffplayAvailable then (.ok lyrics, true)
  else (.error .playerUnavailable, true)

/-- The track of the spec's scenario, parsed from
`"[00:01.50]Hello\n[00:03]World\n[00:03]Again"`. -/
def demoTrack : List Line :=
  parse_lrc ("[00:01.50]Hello\n[00:03]World\n[00:03]Again".toList)

/-! ## Lemmas about the stable sort -/

theorem mem_insertLine {x a : Line} : ∀ {l : List Line}, x ∈ insertLine a l ↔ x = a ∨ x ∈ l := by
  intro l
  induction l with
  | nil => simp [insertLine]
  | cons b l ih =>
    simp only [insertLine]
    by_cases hba : b.t < a.t
    · rw [if_pos hba]
      simp only [List.mem_cons, ih]
      tauto
    · rw [if_neg hba]
      simp only [List.mem_cons]

theorem pairwise_insertLine (a : Line) {l : List Line}
    (h : List.Pairwise (fun x y : Line => x.t ≤ y.t) l) :
    List.Pairwise (fun x y : Line => x.t ≤ y.t) (insertLine a l) := by
  induction l with
  | nil => simp [insertLine]
  | cons b l ih =>
    rw [List.pairwise_cons] at h
    simp only [insertLine]
    by_cases hba : b.t < a.t
    · rw [if_pos hba]
      rw [List.pairwise_cons]
      refine ⟨?_, ih h.2⟩
      intro x hx
      rcases mem_insertLine.mp hx with hxa | hxl
      · exact hxa ▸ le_of_lt hba
      · exact h.1 x hxl
    · rw [if_neg hba]
      have hab : a.t ≤ b.t := le_of_not_lt hba
      rw [List.pairwise_cons]
      refine ⟨?_, List.pairwise_cons.mpr h⟩
      intro x hx
      rcases List.mem_cons.mp hx with hxb | hxl
      · exact hxb ▸ hab
      · exact le_trans hab (h.1 x hxl)

theorem pairwise_sortLines (l : List Line) :
    List.Pairwise (fun x y : Line => x.t ≤ y.t) (sortLines l) := by
  induction l with
  | nil => simp [sortLines]
  | cons a l ih => exact pairwise_insertLine a ih

theorem filter_insertLine (q : ℚ) (a : Line) (l : List Line) :
    (insertLine a l).filter (fun x => decide (x.t = q)) =
      if a.t = q then a :: l.filter (fun x => decide (x.t = q))
      else l.filter (fun x => decide (x.t = q)) := by
  induction l with
  | nil => by_cases haq : a.t = q <;> simp [insertLine, List.filter_cons, haq]
  | cons b l ih =>
    simp only [insertLine]
    by_cases hba : b.t < a.t
    · rw [if_pos hba]
      by_cases hbq : b.t = q
      · have haq : ¬ a.t = q := fun haq => absurd hba (by rw [hbq, haq]; exact lt_irrefl q)
        simp [List.filter_cons, hbq, haq, ih]
      · by_cases haq : a.t = q <;> simp [List.filter_cons, hbq, haq, ih]
    · rw [if_neg hba]
      by_cases haq : a.t = q <;> simp [List.filter_cons, haq]

theorem filter_sortLines (q : ℚ) (l : List Line) :
    (sortLines l).filter (fun x => decide (x.t = q)) = l.filter (fun x => decide (x.t = q)) := by
  induction l with
  | nil => simp [sortLines]
  | cons a l ih =>
    simp only [sortLines]
    rw [filter_insertLine, ih]
    by_cases haq : a.t = q <;> simp [List.filter_cons, haq]

/-- C5: for every input text, the list returned by `parse_lrc` is sorted
ascending by timestamp, regardless of the order of timestamps in the input,
and entries with equal timestamps keep their original parse order: filtering
the output by any fixed timestamp yields exactly the same sequence as
filtering the pre-sort parse order (stable sort). -/
theorem parse_lrc_sorted_stable (s : List Char) :
    List.Pairwise (fun x y : Line => x.t ≤ y.t) (parse_lrc s) ∧
    ∀ q : ℚ, (parse_lrc s).filter (fun x => decide (x.t = q)) =
      (collectLines s).filter (fun x => decide (x.t = q)) :=
  ⟨pairwise_sortLines (collectLines s), fun q => filter_sortLines q (collectLines s)⟩

/-! ## Lemmas about the binary search -/




theorem pyGet?_eq_some (xs : List Line) (i : Int) (h0 : 0 ≤ i) (h : i.toNat < xs.length) :
    pyGet? xs i = some (xs.get ⟨i.toNat, h⟩) := by
  have hcond : 0 ≤ i ∧ i < (xs.length : Int) := by omega
  rw [pyGet?, if_pos hcond, List.getElem?_eq_getElem h]
  simp [List.get_eq_getElem]

theorem findLoopAux_some (lyrics : List Line) (t : ℚ) :
    ∀ (fuel : ℕ) (lo hi ans : Int), 0 ≤ lo → hi < (lyrics.length : Int) →
      (hi + 1 - lo).toNat < fuel →
      ∃ r, findLoopAux lyrics t fuel lo hi ans = some r ∧ (r = ans ∨ (lo ≤ r ∧ r ≤ hi)) := by
  intro fuel
  induction fuel with
  | zero => intro lo hi ans _ _ hf; omega
  | succ n ih =>
    intro lo hi ans h0 hlen hf
    by_cases hlh : lo ≤ hi
    · have hmid1 : lo ≤ (lo + hi) / 2 := by omega
      have hmid2 : (lo + hi) / 2 ≤ hi := by omega
      have hmidn : ((lo + hi) / 2).toNat < lyrics.length := by omega
      simp only [findLoopAux, if_pos hlh,
        pyGet?_eq_some lyrics ((lo + hi) / 2) (by omega) hmidn]
      by_cases hle : (lyrics.get ⟨((lo + hi) / 2).toNat, hmidn⟩).t ≤ t
      · rw [if_pos hle]
        obtain ⟨r, hr, hb⟩ := ih ((lo + hi) / 2 + 1) hi ((lo + hi) / 2) (by omega) hlen (by omega)
        exact ⟨r, hr, by omega⟩
      · rw [if_neg hle]
        obtain ⟨r, hr, hb⟩ := ih lo ((lo + hi) / 2 - 1) ans h0 (by omega) (by omega)
        exact ⟨r, hr, by omega⟩
    · rw [findLoopAux, if_neg hlh]
      exact ⟨ans, rfl, Or.inl rfl⟩


theorem findLoopAux_mono (lyrics : List Line) (t1 t2 : ℚ) (ht : t1 ≤ t2) :
    ∀ (fuel : ℕ) (lo hi ans : Int), 0 ≤ lo → hi < (lyrics.length : Int) →
      (hi + 1 - lo).toNat < fuel → ans < lo →
      ∀ r1 r2, findLoopAux lyrics t1 fuel lo hi ans = some r1 →
        findLoopAux lyrics t2 fuel lo hi ans = some r2 → r1 ≤ r2 := by
  intro fuel
  induction fuel with
  | zero => intro lo hi ans _ _ hf; omega
  | succ n ih =>
    intro lo hi ans h0 hlen hf hans r1 r2 h1 h2
    by_cases hlh : lo ≤ hi
    · have hmid1 : lo ≤ (lo + hi) / 2 := by omega
      have hmid2 : (lo + hi) / 2 ≤ hi := by omega
      have hmidn : ((lo + hi) / 2).toNat < lyrics.length := by omega
      simp only [findLoopAux, if_pos hlh,
        pyGet?_eq_some lyrics ((lo + hi) / 2) (by omega) hmidn] at h1 h2
      by_cases hle1 : (lyrics.get ⟨((lo + hi) / 2).toNat, hmidn⟩).t ≤ t1
      · have hle2 : (lyrics.get ⟨((lo + hi) / 2).toNat, hmidn⟩).t ≤ t2 := le_trans hle1 ht
        rw [if_pos hle1] at h1
        rw [if_pos hle2] at h2
        exact ih ((lo + hi) / 2 + 1) hi ((lo + hi) / 2) (by omega) hlen (by omega) (by omega)
          r1 r2 h1 h2
      · rw [if_neg hle1] at h1
        by_cases hle2 : (lyrics.get ⟨((lo + hi) / 2).toNat, hmidn⟩).t ≤ t2
        · rw [if_pos hle2] at h2
          obtain ⟨r1x, hr1x, hb1⟩ :=
            findLoopAux_some lyrics t1 n lo ((lo + hi) / 2 - 1) ans h0 (by omega) (by omega)
          obtain ⟨r2x, hr2x, hb2⟩ :=
            findLoopAux_some lyrics t2 n ((lo + hi) / 2 + 1) hi ((lo + hi) / 2) (by omega)
              hlen (by omega)
          rw [h1] at hr1x
          rw [h2] at hr2x
          have e1 := Option.some.inj hr1x
          have e2 := Option.some.inj hr2x
          omega
        · rw [if_neg hle2] at h2
          exact ih lo ((lo + hi) / 2 - 1) ans h0 (by omega) (by omega) hans r1 r2 h1 h2
    · rw [findLoopAux, if_neg hlh] at h1 h2
      have e1 := Option.some.inj h1
      have e2 := Option.some.inj h2
      omega

theorem sorted_t_le {lyrics : List Line}
    (hs : List.Pairwise (fun x y : Line => x.t ≤ y.t) lyrics) {i j : ℕ}
    (hij : i ≤ j) (hj : j < lyrics.length) :
    (lyrics.get ⟨i, lt_of_le_of_lt hij hj⟩).t ≤ (lyrics.get ⟨j, hj⟩).t := by
  rcases Nat.lt_or_ge i j with hlt | hge
  · have := List.pairwise_iff_getElem.mp hs i j (by omega) hj hlt
    simpa [List.get_eq_getElem] using this
  · have heq : i = j := by omega
    subst heq
    exact le_refl _

theorem findLoopAux_sorted (lyrics : List Line) (t : ℚ)
    (hs : List.Pairwise (fun x y : Line => x.t ≤ y.t) lyrics) :
    ∀ (fuel : ℕ) (lo hi : Int), 0 ≤ lo → hi < (lyrics.length : Int) → lo ≤ hi + 1 →
      (hi + 1 - lo).toNat < fuel →
      (∀ i : ℕ, (hilen : i < lyrics.length) → (i : Int) < lo → (lyrics.get ⟨i, hilen⟩).t ≤ t) →
      (∀ i : ℕ, (hilen : i < lyrics.length) → hi < (i : Int) → t < (lyrics.get ⟨i, hilen⟩).t) →
      ∃ r, findLoopAux lyrics t fuel lo hi (lo - 1) = some r ∧ -1 ≤ r ∧
        r < (lyrics.length : Int) ∧
        ∀ i : ℕ, (hilen : i < lyrics.length) → ((lyrics.get ⟨i, hilen⟩).t ≤ t ↔ (i : Int) ≤ r) := by
  intro fuel
  induction fuel with
  | zero => intro lo hi _ _ _ hf; omega
  | succ n ih =>
    intro lo hi h0 hlen hlo1 hf hinv1 hinv2
    by_cases hlh : lo ≤ hi
    · have hmid1 : lo ≤ (lo + hi) / 2 := by omega
      have hmid2 : (lo + hi) / 2 ≤ hi := by omega
      have hmidn : ((lo + hi) / 2).toNat < lyrics.length := by omega
      simp only [findLoopAux, if_pos hlh,
        pyGet?_eq_some lyrics ((lo + hi) / 2) (by omega) hmidn]
      by_cases hle : (lyrics.get ⟨((lo + hi) / 2).toNat, hmidn⟩).t ≤ t
      · rw [if_pos hle]
        have hinv1x : ∀ i : ℕ, (hilen : i < lyrics.length) → (i : Int) < (lo + hi) / 2 + 1 →
            (lyrics.get ⟨i, hilen⟩).t ≤ t := by
          intro i hilen hi'
          have hij : i ≤ ((lo + hi) / 2).toNat := by omega
          exact le_trans (sorted_t_le hs hij hmidn) hle
        obtain ⟨r, hr, hb1, hb2, hiff⟩ := ih ((lo + hi) / 2 + 1) hi (by omega) hlen (by omega)
          (by omega) hinv1x hinv2
        refine ⟨r, ?_, hb1, hb2, hiff⟩
        have harg : (lo + hi) / 2 + 1 - 1 = (lo + hi) / 2 := by omega
        rw [harg] at hr
        exact hr
      · rw [if_neg hle]
        have hltm : t < (lyrics.get ⟨((lo + hi) / 2).toNat, hmidn⟩).t := lt_of_not_le hle
        have hinv2x : ∀ i : ℕ, (hilen : i < lyrics.length) → (lo + hi) / 2 - 1 < (i : Int) →
            t < (lyrics.get ⟨i, hilen⟩).t := by
          intro i hilen hi'
          have hij : ((lo + hi) / 2).toNat ≤ i := by omega
          exact lt_of_lt_of_le hltm (sorted_t_le hs hij hilen)
        exact ih lo ((lo + hi) / 2 - 1) h0 (by omega) (by omega) (by omega) hinv1 hinv2x
    · rw [findLoopAux, if_neg hlh]
      refine ⟨lo - 1, rfl, by omega, by omega, ?_⟩
      intro i hilen
      constructor
      · intro hti
        by_contra hgt
        exact absurd hti (not_le_of_lt (hinv2 i hilen (by omega)))
      · intro hle'
        exact hinv1 i hilen (by omega)

/-! ## Claim theorems -/

/-- C1: for every lyric track (non-empty, sorted ascending by timestamp) and
every time `t`, `find_current_index` returns the index of the rightmost
entry whose timestamp is `≤ t` (characterised by: entry `i`'s timestamp is
`≤ t` exactly when `i ≤ r`), and returns `-1` if `t` is before the first
timestamp; for the track parsed from
`"[00:01.50]Hello\n[00:03]World\n[00:03]Again"` it returns `0` at `t = 2.9`,
`2` at `t = 3.0` (the latest-indexed entry of the tie), and `-1` at
`t = 0.0`. -/
theorem find_current_index_rightmost (lyrics : List Line) (t : ℚ)
    (hs : List.Pairwise (fun x y : Line => x.t ≤ y.t) lyrics) (hne : lyrics ≠ []) :
    (∃ r, find_current_index lyrics t = some r ∧ -1 ≤ r ∧ r < (lyrics.length : Int) ∧
      (∀ i : ℕ, (hilen : i < lyrics.length) → ((lyrics.get ⟨i, hilen⟩).t ≤ t ↔ (i : Int) ≤ r)) ∧
      (∀ first : Line, lyrics.head? = some first → t < first.t → r = -1)) ∧
    demoTrack = [⟨3/2, "Hello"⟩, ⟨3, "World"⟩, ⟨3, "Again"⟩] ∧
    find_current_index demoTrack (29/10) = some 0 ∧
    find_current_index demoTrack 3 = some 2 ∧
    find_current_index demoTrack 0 = some (-1) := by
  refine ⟨?_, by with_unfolding_all decide, by with_unfolding_all decide,
    by with_unfolding_all decide, by with_unfolding_all decide⟩
  have hlen0 : 0 < lyrics.length := List.length_pos.mpr hne
  obtain ⟨r, hr, hb1, hb2, hiff⟩ := findLoopAux_sorted lyrics t hs (lyrics.length + 1) 0
    ((lyrics.length : Int) - 1) (by omega) (by omega) (by omega) (by omega)
    (fun i hilen hi' => absurd hi' (by omega))
    (fun i hilen hi' => absurd hi' (by omega))
  norm_num at hr
  refine ⟨r, hr, hb1, hb2, hiff, ?_⟩
  intro first hfirst hlt
  by_contra hne1
  have h0r : (0 : Int) ≤ r := by omega
  have hle0 := (hiff 0 hlen0).mpr h0r
  match lyrics, hfirst with
  | a :: l, hfirst =>
    have ha : a = first := by simpa using hfirst
    rw [show (a :: l).get ⟨0, hlen0⟩ = a from rfl, ha] at hle0
    exact absurd hle0 (not_le_of_lt hlt)

/-- C1 witness: the characterisation instantiated on the scenario track at
`t = 2.9`. -/
theorem find_current_index_rightmost_witness :
    ∃ r, find_current_index demoTrack (29/10) = some r ∧ -1 ≤ r ∧
      r < (demoTrack.length : Int) ∧
      (∀ i : ℕ, (hilen : i < demoTrack.length) →
        ((demoTrack.get ⟨i, hilen⟩).t ≤ 29/10 ↔ (i : Int) ≤ r)) ∧
      (∀ first : Line, demoTrack.head? = some first → 29/10 < first.t → r = -1) :=
  (find_current_index_rightmost demoTrack (29/10) (by with_unfolding_all decide)
    (by with_unfolding_all decide)).1

/-- C2 counterexample: the claim says creating the clock with initial offset
`i` sets the anchor to `now - i` so that `elapsed()` sampled immediately
equals `+i`; at `now = 0`, `i = 1` the code sets `start = now + offset = 1`
(not `0 - 1`) and `elapsed` immediately after creation is `-1` (not `+1`). -/
theorem initClock_claim_counterexample :
    (initClock 0 1).start = 1 ∧ elapsedAt (initClock 0 1) 0 = -1 ∧
    ¬ ((initClock 0 1).start = 0 - 1 ∧ elapsedAt (initClock 0 1) 0 = 1) := by
  refine ⟨by norm_num [initClock], by norm_num [initClock, elapsedAt], ?_⟩
  intro h
  have h1 := h.1
  norm_num [initClock] at h1

/-- C2 (amended): for every initial offset `i`, creating the playback clock
at wall time `now` sets the anchor `start` to `now + i`, so that `elapsed()`
sampled immediately after creation equals `-i`: the starting offset is
reflected at once, without a ramp (a positive offset delays the lyrics, per
the program's own `--offset` documentation). -/
theorem initClock_elapsed (now i : ℚ) :
    (initClock now i).start = now + i ∧ elapsedAt (initClock now i) now = -i := by
  constructor
  · rfl
  · show now - (now + i) = -i
    ring

/-- C3: nudging by `d` adds exactly `d` to the displayed offset and to the
value `elapsed` yields at any same wall instant, regardless of how much real
time passed since clock creation (`wall` is arbitrary); KEY_UP performs
exactly the `d = 0.05 = 1/20` nudge; five KEY_UP nudges yield displayed
cumulative offset `+0.25` and shift elapsed forward by `0.25` relative to
the pre-nudge trajectory. -/
theorem nudge_shifts_elapsed (cv : ClockVars) (d wall : ℚ) :
    elapsedAt (nudge cv d) wall = elapsedAt cv wall + d ∧
    (nudge cv d).offset = cv.offset + d ∧
    handleKey keyUp cv = (nudge cv (1/20), false) ∧
    (nudge (nudge (nudge (nudge (nudge cv (1/20)) (1/20)) (1/20)) (1/20)) (1/20)).offset =
      cv.offset + 1/4 ∧
    elapsedAt (nudge (nudge (nudge (nudge (nudge cv (1/20)) (1/20)) (1/20)) (1/20)) (1/20)) wall =
      elapsedAt cv wall + 1/4 := by
  refine ⟨?_, rfl, ?_, ?_, ?_⟩
  · show wall - (cv.start - d) = wall - cv.start + d
    ring
  · show handleKey 259 cv = (nudge cv (1/20), false)
    rw [handleKey]
    norm_num [keyQuitQ, keyEsc, keyUp]
  · show cv.offset + 1/20 + 1/20 + 1/20 + 1/20 + 1/20 = cv.offset + 1/4
    ring
  · show wall - (cv.start - 1/20 - 1/20 - 1/20 - 1/20 - 1/20) = wall - cv.start + 1/4
    ring

/-- C4: for every valid timestamp tag `[MM:SS]`, `[MM:SS.F]` or `[MM:SS.FF]`
(`MM`, `SS` two digits, fraction one or two digits), the tag matches and the
parser computes the timestamp exactly as `MM*60 + SS + frac`, with
`frac = F/10` for a one-digit fraction, `FF/100` for a two-digit fraction,
and `0` when absent. -/
theorem tag_time_exact (a b c d : Char)
    (ha : a.isDigit = true) (hb : b.isDigit = true)
    (hc : c.isDigit = true) (hd : d.isDigit = true) :
    (∀ rest : List Char,
      matchTagAt ('[' :: a :: b :: ':' :: c :: d :: ']' :: rest) =
        some (⟨[a, b], [c, d], none⟩, rest) ∧
      stampTime ⟨[a, b], [c, d], none⟩ =
        ((10 * digitVal a + digitVal b : ℕ) : ℚ) * 60 + ((10 * digitVal c + digitVal d : ℕ) : ℚ)) ∧
    (∀ e : Char, e.isDigit = true → ∀ rest : List Char,
      matchTagAt ('[' :: a :: b :: ':' :: c :: d :: '.' :: e :: ']' :: rest) =
        some (⟨[a, b], [c, d], some [e]⟩, rest) ∧
      stampTime ⟨[a, b], [c, d], some [e]⟩ =
        ((10 * digitVal a + digitVal b : ℕ) : ℚ) * 60 + ((10 * digitVal c + digitVal d : ℕ) : ℚ) +
          (digitVal e : ℚ) / 10) ∧
    (∀ e f : Char, e.isDigit = true → f.isDigit = true → ∀ rest : List Char,
      matchTagAt ('[' :: a :: b :: ':' :: c :: d :: '.' :: e :: f :: ']' :: rest) =
        some (⟨[a, b], [c, d], some [e, f]⟩, rest) ∧
      stampTime ⟨[a, b], [c, d], some [e, f]⟩ =
        ((10 * digitVal a + digitVal b : ℕ) : ℚ) * 60 + ((10 * digitVal c + digitVal d : ℕ) : ℚ) +
          ((10 * digitVal e + digitVal f : ℕ) : ℚ) / 100) := by
  refine ⟨fun rest => ⟨?_, ?_⟩, fun e he rest => ⟨?_, ?_⟩, fun e f he hf rest => ⟨?_, ?_⟩⟩
  · simp +decide [matchTagAt, ha, hb, hc, hd]
  · simp +decide [stampTime, digitsToNat]
  · simp +decide [matchTagAt, ha, hb, hc, hd, he]
  · simp +decide [stampTime, digitsToNat]
  · simp +decide [matchTagAt, ha, hb, hc, hd, he, hf]
  · simp +decide [stampTime, digitsToNat]

/-- C4 witness: the scenario tag `[00:01.50]` matches with groups
`("00","01","50")` and time exactly `0*60 + 1 + 50/100 = 3/2`. -/
theorem tag_time_exact_witness :
    matchTagAt ("[00:01.50]".toList) = some (⟨['0', '0'], ['0', '1'], some ['5', '0']⟩, []) ∧
    stampTime ⟨['0', '0'], ['0', '1'], some ['5', '0']⟩ = 3/2 := by
  have h := ((tag_time_exact '0' '0' '0' '1' (by decide) (by decide) (by decide)
    (by decide)).2.2 '5' '0' (by decide) (by decide)) []
  refine ⟨h.1, ?_⟩
  rw [h.2]
  have e0 : digitVal '0' = 0 := by decide
  have e1 : digitVal '1' = 1 := by decide
  have e5 : digitVal '5' = 5 := by decide
  rw [e0, e1, e5]
  norm_num

/-- C6: the empty-track error is raised if and only if the parsed track is
empty; when it is raised, the external player was never launched and no
session (hence no render loop) is produced. -/
theorem setupSession_emptyTrack_iff (lrcText : List Char) (avail : Bool) :
    ((setupSession lrcText avail).1 = .error .emptyTrack ↔ parse_lrc lrcText = []) ∧
    (parse_lrc lrcText = [] →
      (setupSession lrcText avail).2 = false ∧
      ∀ track, (setupSession lrcText avail).1 ≠ .ok track) := by
  rw [setupSession]
  by_cases hp : parse_lrc lrcText = []
  · rw [if_pos hp]
    exact ⟨by simp [hp], fun _ => ⟨rfl, fun track h => by simp at h⟩⟩
  · rw [if_neg hp]
    by_cases hav : avail = true
    · rw [if_pos hav]
      constructor
      · constructor
        · intro h
          simp at h
        · intro h
          exact absurd h hp
      · intro h
        exact absurd h hp
    · rw [if_neg hav]
      constructor
      · constructor
        · intro h
          simp at h
        · intro h
          exact absurd h hp
      · intro h
        exact absurd h hp

/-- C6 witness: the empty lyrics file triggers the empty-track error before
any player launch. -/
theorem setupSession_emptyTrack_iff_witness :
    (setupSession [] false).1 = .error .emptyTrack ∧ (setupSession [] false).2 = false :=
  ⟨(setupSession_emptyTrack_iff [] false).1.mpr (by with_unfolding_all rfl),
   ((setupSession_emptyTrack_iff [] false).2 (by with_unfolding_all rfl)).1⟩

/-- C7: on a tick whose key is not quit (`q`/ESC), the loop transitions to
`Stopping` exactly when the player is no longer running and elapsed has
passed `lastStamp + 1.0` (the fixed grace); while the player is alive or
elapsed has not passed that bound, this termination condition never fires. -/
theorem tick_playback_exit_iff (cv : ClockVars) (lastStamp : ℚ) (ch : Int)
    (run : Bool) (wall : ℚ) (hq : ch ≠ keyQuitQ) (he : ch ≠ keyEsc) :
    ((tick cv lastStamp ch run wall).2 = .Stopping ↔
      (run = false ∧ lastStamp + 1 < elapsedAt cv wall)) := by
  have hkr : (handleKey ch cv).2 = false := by
    rw [handleKey]
    by_cases h1 : ch ≠ -1
    · rw [if_pos h1, if_neg (by tauto)]
      by_cases h3 : ch = keyUp
      · rw [if_pos h3]
      · rw [if_neg h3]
        by_cases h4 : ch = keyDown
        · rw [if_pos h4]
        · rw [if_neg h4]
    · rw [if_neg h1]
  rw [tick]
  rw [hkr]
  by_cases hcond : run = false ∧ lastStamp + 1 < elapsedAt cv wall
  · rw [if_neg (by simp), if_pos hcond]
    simp [hcond]
  · rw [if_neg (by simp), if_neg hcond]
    simp [hcond]

/-- C7 witness: with no key pending, a dead player and elapsed past the
grace bound, the tick stops; the condition holds at the same input. -/
theorem tick_playback_exit_iff_witness :
    (tick ⟨0, 0⟩ 0 (-1) false 2).2 = .Stopping :=
  (tick_playback_exit_iff ⟨0, 0⟩ 0 (-1) false 2 (by decide) (by decide)).mpr
    ⟨rfl, by norm_num [elapsedAt]⟩

/-- C9: every key other than quit (`q`/ESC), nudge-up and nudge-down is a
no-op: processing it leaves the clock state (displayed offset and anchor)
unchanged, does not break the loop, and the whole tick behaves exactly as a
tick with no pending key. -/
theorem unrecognized_key_noop (ch : Int) (h1 : ch ≠ keyQuitQ) (h2 : ch ≠ keyEsc)
    (h3 : ch ≠ keyUp) (h4 : ch ≠ keyDown) (cv : ClockVars) (lastStamp : ℚ)
    (run : Bool) (wall : ℚ) :
    handleKey ch cv = (cv, false) ∧
    (tick cv lastStamp ch run wall).1 = cv ∧
    tick cv lastStamp ch run wall = tick cv lastStamp (-1) run wall := by
  have hk : handleKey ch cv = (cv, false) := by
    rw [handleKey]
    by_cases hne : ch ≠ -1
    · rw [if_pos hne, if_neg (by tauto), if_neg h3, if_neg h4]
    · rw [if_neg hne]
  have hk1 : handleKey (-1) cv = (cv, false) := by
    rw [handleKey]
    norm_num
  refine ⟨hk, ?_, ?_⟩
  · rw [tick, hk]
    by_cases hcond : run = false ∧ lastStamp + 1 < elapsedAt cv wall
    · rw [if_neg (by simp), if_pos hcond]
    · rw [if_neg (by simp), if_neg hcond]
  · rw [tick, tick, hk, hk1]

/-- C9 witness: the key `x` (code 120) is a no-op on a concrete tick. -/
theorem unrecognized_key_noop_witness :
    handleKey 120 ⟨0, 0⟩ = (⟨0, 0⟩, false) ∧
    (tick ⟨0, 0⟩ 10 120 true 2).1 = ⟨0, 0⟩ ∧
    tick ⟨0, 0⟩ 10 120 true 2 = tick ⟨0, 0⟩ 10 (-1) true 2 :=
  unrecognized_key_noop 120 (by decide) (by decide) (by decide) (by decide) ⟨0, 0⟩ 10 true 2

/-- C8: the active index is monotonic non-decreasing in time for a fixed
track: for all `t1 ≤ t2` the search succeeds on both and the first result
is at most the second. -/
theorem find_current_index_mono (lyrics : List Line) (t1 t2 : ℚ) (ht : t1 ≤ t2) :
    ∃ r1 r2, find_current_index lyrics t1 = some r1 ∧
      find_current_index lyrics t2 = some r2 ∧ r1 ≤ r2 := by
  obtain ⟨r1, hr1, _⟩ := findLoopAux_some lyrics t1 (lyrics.length + 1) 0
    ((lyrics.length : Int) - 1) (-1) (by omega) (by omega) (by omega)
  obtain ⟨r2, hr2, _⟩ := findLoopAux_some lyrics t2 (lyrics.length + 1) 0
    ((lyrics.length : Int) - 1) (-1) (by omega) (by omega) (by omega)
  exact ⟨r1, r2, hr1, hr2, findLoopAux_mono lyrics t1 t2 ht (lyrics.length + 1) 0
    ((lyrics.length : Int) - 1) (-1) (by omega) (by omega) (by omega) (by omega) r1 r2 hr1 hr2⟩

/-- C8 witness: on the scenario track, the index at `t = 0` is at most the
index at `t = 3`. -/
theorem find_current_index_mono_witness :
    ∃ r1 r2, find_current_index demoTrack 0 = some r1 ∧
      find_current_index demoTrack 3 = some r2 ∧ r1 ≤ r2 :=
  find_current_index_mono demoTrack 0 3 (by norm_num)

/-- C10: for every list of lyric lines (including the empty list) and every
time `t`, `find_current_index` terminates (it is a total function here),
performs no out-of-bounds access (the `pyGet?` guard never returns `none`,
so the result is `some`), and returns an integer in `[-1, length - 1]`; on
the empty list it returns `-1`. -/
theorem find_current_index_total_inbounds (lyrics : List Line) (t : ℚ) :
    (∃ r, find_current_index lyrics t = some r ∧ -1 ≤ r ∧ r ≤ (lyrics.length : Int) - 1) ∧
    find_current_index [] t = some (-1) := by
  constructor
  · obtain ⟨r, hr, hb⟩ := findLoopAux_some lyrics t (lyrics.length + 1) 0
      ((lyrics.length : Int) - 1) (-1) (by omega) (by omega) (by omega)
    exact ⟨r, hr, by omega⟩
  · rfl

end KaraokeCli
